import Mathlib

/-!
Verification development for the learner-performance-monitor repository.

The embedding covers the two core components the claims are about:

* `analyse_students.py` — per-student metrics aggregation (the inner loop over
  coursework items, lines 59-131 of the source).  Grades and maxima are
  modelled as rationals; the Python `float` arithmetic is exact on the small
  integral inputs involved here.
* `generate_reports.py` — the batched classifier: batching, response
  splitting on the `---` delimiter, category extraction and validation,
  per-student retry loop with exponential backoff, Needs-Review fallback and
  markdown-bold stripping.

Python string helpers (`str.split`, `str.splitlines`, `str.strip`,
`re.sub(r'\*\*', '', _)`) are embedded as explicit recursive functions on
`List Char` so that their behaviour is provable; each definition notes the
Python construct it models.  The external classification call is modelled as
an oracle `ℕ → Except Unit String` giving the outcome of the n-th call made
during the run (a returned text, or a raised exception); the prompt text does
not influence any claim and is abstracted away.  `while` loops are embedded
with an explicit fuel parameter: a `none` result means the loop has not
terminated within the given fuel.
-/

/-- The ASCII whitespace characters stripped by Python `str.strip()`. -/
def isPySpace (c : Char) : Bool :=
  c = ' ' || c = '\t' || c = '\n' || c = '\r' || c = '\x0b' || c = '\x0c'

/-- Python `str.strip()` on a character list: drop whitespace from both ends. -/
def pstrip (l : List Char) : List Char :=
  ((l.dropWhile isPySpace).reverse.dropWhile isPySpace).reverse

/-- Python `text.split('---')`: split on non-overlapping occurrences of the
three-hyphen delimiter, scanning left to right (`generate_reports.py` line 76). -/
def splitDashes : List Char → List (List Char)
  | [] => [[]]
  | '-' :: '-' :: '-' :: rest => [] :: splitDashes rest
  | c :: rest =>
    match splitDashes rest with
    | [] => [[c]]
    | f :: fs => (c :: f) :: fs

/-- Python `text.split('\n')` (the embedding of `str.splitlines()` used by
`extract_category`; carriage returns are handled by the surrounding strips). -/
def splitNl : List Char → List (List Char)
  | [] => [[]]
  | c :: rest =>
    if c = '\n' then [] :: splitNl rest
    else
      match splitNl rest with
      | [] => [[c]]
      | f :: fs => (c :: f) :: fs

/-- The text after the first colon of a line: Python `line.split(":", 1)[1]`,
`none` when the line has no colon (unreachable at the call site, which is
guarded by a `startswith("Category:")` check). -/
def afterFirstColon : List Char → Option (List Char)
  | [] => none
  | ':' :: rest => some rest
  | _ :: rest => afterFirstColon rest

/-- `[r.strip() for r in ai_response.split('---') if r.strip()]`
(`generate_reports.py` lines 76 and 104/165). -/
def splitResponses (s : String) : List String :=
  (((splitDashes s.data).map pstrip).filter (fun l => !l.isEmpty)).map
    (fun l => String.mk l)

/-- `extract_category` of `generate_reports.py` (lines 107-111 / 143-147):
the first line whose stripped form starts with `Category:`, read after the
first colon and stripped. -/
def extract_category (resp : String) : Option String :=
  match (splitNl resp.data).find?
      (fun l => "Category:".data.isPrefixOf (pstrip l)) with
  | none => none
  | some line =>
    match afterFirstColon line with
    | none => none
    | some rest => some (String.mk (pstrip rest))

/-- `candidate_cat and candidate_cat in categories` (lines 113 / 152 / 169):
the extracted category is truthy and a member of the configured list. -/
def isValidCat (cats : List String) (c : Option String) : Bool :=
  match c with
  | none => false
  | some c => !(c == "") && cats.contains c

/-- `re.sub(r'\*\*', '', text)`: delete non-overlapping occurrences of `**`,
scanning left to right (`remove_markdown_bold`, lines 16-19). -/
def removeBoldAux : List Char → List Char
  | [] => []
  | [c] => [c]
  | c1 :: c2 :: rest =>
    if c1 = '*' && c2 = '*' then removeBoldAux rest
    else c1 :: removeBoldAux (c2 :: rest)

/-- `remove_markdown_bold` of `generate_reports.py` (lines 16-19). -/
def remove_markdown_bold (s : String) : String :=
  String.mk (removeBoldAux s.data)

/-- Whether a character list contains two adjacent asterisks (the substring
`**`). -/
def hasDoubleStar : List Char → Bool
  | [] => false
  | [_] => false
  | c1 :: c2 :: rest => (c1 = '*' && c2 = '*') || hasDoubleStar (c2 :: rest)

-- ### Metrics aggregation (`analyse_students.py`)

/-- A student submission as consumed by the metrics loop
(`analyse_students.py` lines 78-116): only the late flag and the optional
assigned grade are read there. -/
structure Submission where
  late : Bool
  assignedGrade : Option ℚ
deriving Repr, DecidableEq

/-- A coursework item as consumed by the metrics loop: only the optional
maximum points are read there. -/
structure CourseworkItem where
  maxPoints : Option ℚ
deriving Repr, DecidableEq

/-- The running accumulators of the per-student loop of
`analyse_students.py` (lines 59-76). -/
structure MetricsAcc where
  missing : ℕ
  late : ℕ
  graded_count : ℕ
  total_earned_submitted : ℚ
  total_possible_submitted : ℚ
  total_earned_all : ℚ
  total_possible_all : ℚ
deriving Repr, DecidableEq

/-- The zero-initialised accumulator. -/
def initAcc : MetricsAcc := ⟨0, 0, 0, 0, 0, 0, 0⟩

/-- One iteration of the `for cw in coursework` loop of
`analyse_students.py` (lines 78-116), over a coursework item paired with the
submission found for it in the lookup (`none` when absent). -/
def stepMetrics (acc : MetricsAcc) (item : CourseworkItem × Option Submission) :
    MetricsAcc :=
  match item.2 with
  | none => { acc with missing := acc.missing + 1 }
  | some sub =>
    let acc1 := if sub.late then { acc with late := acc.late + 1 } else acc
    let assigned := sub.assignedGrade
    let maxp := item.1.maxPoints
    let acc2 :=
      match maxp with
      | some p =>
        if 0 < p then
          { acc1 with
            total_possible_all := acc1.total_possible_all + p
            total_earned_all := acc1.total_earned_all +
              (match assigned with
               | some a => if 0 < a then a else 0
               | none => 0) }
        else acc1
      | none => acc1
    match assigned with
    | none => { acc2 with missing := acc2.missing + 1 }
    | some a =>
      if a = 0 then { acc2 with missing := acc2.missing + 1 }
      else
        match maxp with
        | some p =>
          if 0 < p then
            { acc2 with
              total_earned_submitted := acc2.total_earned_submitted + a
              total_possible_submitted := acc2.total_possible_submitted + p
              graded_count := acc2.graded_count + 1 }
          else acc2
        | none => acc2

/-- The whole `for cw in coursework` loop. -/
def metricsLoop : List (CourseworkItem × Option Submission) → MetricsAcc → MetricsAcc
  | [], acc => acc
  | it :: rest, acc => metricsLoop rest (stepMetrics acc it)

/-- The metrics record attached to each student
(`analyse_students.py` lines 59-71 and 118-130). -/
structure StudentMetrics where
  total_assignments : ℕ
  missing : ℕ
  late : ℕ
  average_submitted : ℚ
  average_all : ℚ
  average_score : ℚ
  graded_count : ℕ
deriving Repr, DecidableEq

/-- The per-student metrics computation of `analyse_students.py`
(lines 59-131): run the loop, then derive the two averages with their
division-by-zero guards, and mirror `average_all` into `average_score`. -/
def analyseMetrics (items : List (CourseworkItem × Option Submission)) :
    StudentMetrics :=
  let acc := metricsLoop items initAcc
  let avgSub :=
    if 0 < acc.total_possible_submitted then
      acc.total_earned_submitted / acc.total_possible_submitted * 100
    else 0
  let avgAll :=
    if 0 < acc.total_possible_all then
      acc.total_earned_all / acc.total_possible_all * 100
    else 0
  { total_assignments := items.length
    missing := acc.missing
    late := acc.late
    average_submitted := avgSub
    average_all := avgAll
    average_score := avgAll
    graded_count := acc.graded_count }






-- ### Batched classification (`generate_reports.py`)

/-- First line of both Needs-Review fallback responses
(`generate_reports.py` lines 127, 188, 190). -/
def nrLine1 : String := "Category: Needs Review"

/-- Fallback response when retries are exhausted and no category was ever
obtained (`generate_reports.py` lines 127 and 190); `m` stands for
`json.dumps(batch_data[i][1])`, the serialised metrics. -/
def needsReviewMissing (m : String) : String :=
  nrLine1 ++ "\n" ++
    ("Teacher Report: Unable to obtain valid category after retrying. Please review student metrics: "
      ++ m)

/-- Fallback response when the original fragment carried a category outside
the allowed set (`generate_reports.py` line 188). -/
def needsReviewInvalid (cat m : String) : String :=
  nrLine1 ++ "\n" ++
    ("Teacher Report: AI provided an invalid category (\x27" ++ cat ++
      "\x27). Please review student metrics: " ++ m)

/-- Observable events of the per-student retry loop: the start of the k-th
attempt, and a backoff delay of `d` seconds (`time.sleep`). -/
inductive RetryEvent where
  | attempt (k : ℕ)
  | delay (d : ℕ)
deriving Repr, DecidableEq

/-- The per-retry `try/except` around `call_ollama_classify`
(`generate_reports.py` lines 99-103 and 159-163): a raised exception is
caught and treated as the empty response. -/
def recoverCall (r : Except Unit String) : String :=
  match r with
  | Except.ok s => s
  | Except.error _ => ""

/-- The per-student retry `while` loop of `generate_reports.py`
(lines 95-122 and 155-180), fuel-indexed.  Arguments after the fixed
configuration: remaining fuel, the `attempts` counter, the index of the next
external call.  Result `none` means the loop did not terminate within the
fuel; otherwise the `valid_response` variable (`none` when retries were
exhausted), the final `attempts` counter, the next call index, and the list
of attempt/delay events in order. -/
def retryLoop (oracle : ℕ → Except Unit String) (cats : List String)
    (maxR : ℤ) :
    ℕ → ℕ → ℕ → Option (Option String × ℕ × ℕ × List RetryEvent)
  | 0, _, _ => none
  | fuel + 1, attempts, calls =>
    if maxR ≤ 0 ∨ (attempts : ℤ) < maxR then
      let a := attempts + 1
      let single_ai := recoverCall (oracle calls)
      let fragments := splitResponses single_ai
      let d := min (2 ^ (a - 1)) 30
      match fragments with
      | candidate :: _ =>
        if isValidCat cats (extract_category candidate) then
          some (some candidate, a, calls + 1, [RetryEvent.attempt a])
        else
          (retryLoop oracle cats maxR fuel a (calls + 1)).map
            (fun r => (r.1, r.2.1, r.2.2.1,
              RetryEvent.attempt a :: RetryEvent.delay d :: r.2.2.2))
      | [] =>
        (retryLoop oracle cats maxR fuel a (calls + 1)).map
          (fun r => (r.1, r.2.1, r.2.2.1,
            RetryEvent.attempt a :: RetryEvent.delay d :: r.2.2.2))
    else
      some (none, attempts, calls, [])

/-- Shape of the event trace of a retry loop whose last attempt succeeded,
with `k` the number of the next attempt: zero or more failed attempts each
followed by a backoff delay of `min(2^(j-1), 30)` seconds, ending in a bare
successful attempt with no delay after it. -/
def isSuccTrace : ℕ → List RetryEvent → Bool
  | k, [RetryEvent.attempt j] => j == k
  | k, RetryEvent.attempt j :: RetryEvent.delay d :: rest =>
    j == k && d == min (2 ^ (k - 1)) 30 && isSuccTrace (k + 1) rest
  | _, _ => false

/-- Shape of the event trace of a retry loop that never succeeded: every
attempt, the last one included, is followed by a backoff delay of
`min(2^(j-1), 30)` seconds. -/
def isFailTrace : ℕ → List RetryEvent → Bool
  | _, [] => true
  | k, RetryEvent.attempt j :: RetryEvent.delay d :: rest =>
    j == k && d == min (2 ^ (k - 1)) 30 && isFailTrace (k + 1) rest
  | _, _ => false

/-- The count-mismatch branch of `generate_reports.py` (lines 78-129): each
student at index `i` takes fragment `i` directly when it exists, and goes
through the retry loop (with the missing-response fallback) otherwise.
Students are `(student id, serialised metrics)` pairs.  Returns the
`(sid, ai_response)` pairs appended to `results` and the next call index. -/
def assignMismatch (oracle : ℕ → Except Unit String) (cats : List String)
    (maxR : ℤ) (fuel : ℕ) :
    List (String × String) → ℕ → List String → ℕ →
      Option (List (String × String) × ℕ)
  | [], _, _, calls => some ([], calls)
  | (sid, m) :: rest, i, fragments, calls =>
    match fragments.get? i with
    | some response =>
      (assignMismatch oracle cats maxR fuel rest (i + 1) fragments calls).map
        (fun r => ((sid, remove_markdown_bold response) :: r.1, r.2))
    | none =>
      match retryLoop oracle cats maxR fuel 0 calls with
      | none => none
      | some (vr, _, calls2, _) =>
        let response :=
          match vr with
          | some v => v
          | none => needsReviewMissing m
        (assignMismatch oracle cats maxR fuel rest (i + 1) fragments calls2).map
          (fun r => ((sid, remove_markdown_bold response) :: r.1, r.2))

/-- The matched branch of `generate_reports.py` (lines 140-193), walking the
batch and its fragments in lockstep (the two lists have equal length at the
call site): validate each fragment, retry per student on failure, and fall
back to the Needs-Review responses when retries are exhausted. -/
def assignMatched (oracle : ℕ → Except Unit String) (cats : List String)
    (maxR : ℤ) (fuel : ℕ) :
    List (String × String) → List String → ℕ →
      Option (List (String × String) × ℕ)
  | [], _, calls => some ([], calls)
  | _ :: _, [], calls => some ([], calls)
  | (sid, m) :: rest, response :: fragRest, calls =>
    let category := extract_category response
    if isValidCat cats category then
      (assignMatched oracle cats maxR fuel rest fragRest calls).map
        (fun r => ((sid, remove_markdown_bold response) :: r.1, r.2))
    else
      match retryLoop oracle cats maxR fuel 0 calls with
      | none => none
      | some (vr, _, calls2, _) =>
        let finalResponse :=
          match vr with
          | some v => v
          | none =>
            match category with
            | some c =>
              if !(c == "") && !(cats.contains c) then needsReviewInvalid c m
              else needsReviewMissing m
            | none => needsReviewMissing m
        (assignMatched oracle cats maxR fuel rest fragRest calls2).map
          (fun r => ((sid, remove_markdown_bold finalResponse) :: r.1, r.2))

/-- The outer `for start in range(0, len(student_items), BATCH_SIZE)` loop of
`generate_reports.py` (lines 29-193), one iteration per batch.  The initial
per-batch call (line 73) is not wrapped in any `try`: a raised exception
(`Except.error`) terminates the whole run with that error. -/
def processBatches (oracle : ℕ → Except Unit String) (cats : List String)
    (maxR : ℤ) (fuel : ℕ) :
    List (List (String × String)) → ℕ →
      Option (Except Unit (List (String × String)))
  | [], _ => some (Except.ok [])
  | batch :: rest, calls =>
    match oracle calls with
    | Except.error e => some (Except.error e)
    | Except.ok ai_response =>
      let fragments := splitResponses ai_response
      let branch :=
        if fragments.length ≠ batch.length then
          assignMismatch oracle cats maxR fuel batch 0 fragments (calls + 1)
        else
          assignMatched oracle cats maxR fuel batch fragments (calls + 1)
      match branch with
      | none => none
      | some (out, calls2) =>
        match processBatches oracle cats maxR fuel rest calls2 with
        | none => none
        | some (Except.error e) => some (Except.error e)
        | some (Except.ok outRest) => some (Except.ok (out ++ outRest))

/-- Fuel-indexed slicing helper for `student_items[start:start + BATCH_SIZE]`. -/
def chunkAux {α : Type} (B : ℕ) : ℕ → List α → List (List α)
  | _, [] => []
  | 0, _ :: _ => []
  | fuel + 1, x :: xs => ((x :: xs).take B) :: chunkAux B fuel ((x :: xs).drop B)

/-- `student_items` sliced into consecutive batches of size `B`
(`generate_reports.py` lines 29-30); total for every positive `B`. -/
def chunkList {α : Type} (B : ℕ) (l : List α) : List (List α) :=
  chunkAux B l.length l

/-- `generate_reports` of `generate_reports.py` (lines 21-195).  Students are
`(student id, serialised metrics)` pairs in the dictionary's iteration
order; `batchSize` and `maxR` are the `AI_BATCH_SIZE` / `AI_MAX_RETRIES`
configuration values; `fuel` bounds every retry loop.  `none` means some
retry loop did not terminate within the fuel; `some (Except.error e)` means
an uncaught exception from a per-batch call ended the run; `some (Except.ok
rs)` is the `results` mapping as an association list in insertion order. -/
def generate_reports (oracle : ℕ → Except Unit String)
    (students : List (String × String)) (cats : List String)
    (batchSize : ℕ) (maxR : ℤ) (fuel : ℕ) :
    Option (Except Unit (List (String × String))) :=
  processBatches oracle cats maxR fuel (chunkList batchSize students) 0



-- ### Lemmas on the markdown-bold stripper

/-- When the head character cannot open a `**` pair, `removeBoldAux` keeps it. -/
lemma removeBoldAux_cons_of_ne (c : Char) (l : List Char) (hc : c ≠ '*') :
    removeBoldAux (c :: l) = c :: removeBoldAux l := by
  cases l with
  | nil => rfl
  | cons d t => simp [removeBoldAux, hc]

/-- The output of `removeBoldAux` never contains two adjacent asterisks. -/
lemma hasDoubleStar_removeBoldAux (l : List Char) :
    hasDoubleStar (removeBoldAux l) = false := by
  induction l using removeBoldAux.induct with
  | case1 => rfl
  | case2 c =>
    show hasDoubleStar [c] = false
    rfl
  | case3 c1 c2 rest h ih =>
    rw [removeBoldAux, if_pos h]
    exact ih
  | case4 c1 c2 rest h ih =>
    rw [removeBoldAux, if_neg h]
    by_cases hc1 : c1 = '*'
    · have hc2 : c2 ≠ '*' := by
        intro hc2
        exact h (by simp [hc1, hc2])
      rw [removeBoldAux_cons_of_ne c2 rest hc2] at ih ⊢
      subst hc1
      simpa [hasDoubleStar, hc2] using ih
    · cases hrec : removeBoldAux (c2 :: rest) with
      | nil => simp [hasDoubleStar]
      | cons d t =>
        rw [hrec] at ih
        simpa [hasDoubleStar, hc1] using ih

/-- A list without adjacent asterisks is a fixed point of `removeBoldAux`. -/
lemma removeBoldAux_of_no_doubleStar (l : List Char)
    (h : hasDoubleStar l = false) : removeBoldAux l = l := by
  induction l using removeBoldAux.induct with
  | case1 => rfl
  | case2 c => rfl
  | case3 c1 c2 rest hpair ih =>
    exfalso
    have : hasDoubleStar (c1 :: c2 :: rest) = true := by
      simp [hasDoubleStar]
      left
      simpa using hpair
    rw [this] at h
    exact Bool.noConfusion h
  | case4 c1 c2 rest hpair ih =>
    rw [removeBoldAux, if_neg hpair]
    have htail : hasDoubleStar (c2 :: rest) = false := by
      have := h
      simp [hasDoubleStar] at this
      exact this.2
    rw [ih htail]

/-- `removeBoldAux` is idempotent. -/
lemma removeBoldAux_idem (l : List Char) :
    removeBoldAux (removeBoldAux l) = removeBoldAux l :=
  removeBoldAux_of_no_doubleStar _ (hasDoubleStar_removeBoldAux l)

/-- Any list exhibiting an explicit `**` infix makes `hasDoubleStar` true. -/
lemma hasDoubleStar_of_parts (l1 l2 : List Char) :
    hasDoubleStar (l1 ++ '*' :: '*' :: l2) = true := by
  induction l1 with
  | nil => simp [hasDoubleStar]
  | cons c t ih =>
    cases h : t ++ '*' :: '*' :: l2 with
    | nil => simp at h
    | cons d r =>
      have : hasDoubleStar (c :: d :: r) = ((c = '*' && d = '*') || hasDoubleStar (d :: r)) := rfl
      rw [List.cons_append, h, this, ← h, ih]
      simp

-- ### Lemmas on line splitting and category extraction

/-- `splitNl` never returns the empty list. -/
lemma splitNl_ne_nil (l : List Char) : splitNl l ≠ [] := by
  cases l with
  | nil => simp [splitNl]
  | cons c rest =>
    rw [splitNl]
    by_cases hc : c = '\n'
    · simp [hc]
    · rw [if_neg hc]
      cases splitNl rest with
      | nil => simp
      | cons f fs => simp

/-- Splitting at the first newline: the part before it becomes the first
line. -/
lemma splitNl_append (l1 l2 : List Char) (h : '\n' ∉ l1) :
    splitNl (l1 ++ '\n' :: l2) = l1 :: splitNl l2 := by
  induction l1 with
  | nil => simp [splitNl]
  | cons c t ih =>
    have hc : c ≠ '\n' := fun hh => h (by simp [hh])
    have ht : '\n' ∉ t := fun hh => h (by simp [hh])
    rw [List.cons_append, splitNl, if_neg hc, ih ht]

/-- Any response that starts with the literal line `Category: Needs Review`
followed by a newline has extracted category `Needs Review`, whatever the
rest of the text is. -/
lemma extract_category_nrLine1 (tail : String) :
    extract_category (nrLine1 ++ "\n" ++ tail) = some "Needs Review" := by
  have hdata : (nrLine1 ++ "\n" ++ tail).data = nrLine1.data ++ '\n' :: tail.data := by
    rw [String.data_append, String.data_append]
    rfl
  rw [extract_category, hdata, splitNl_append _ _ (by decide),
    List.find?_cons_of_pos _ (by decide)]
  rfl

/-- The missing-response fallback carries category `Needs Review`. -/
lemma extract_category_needsReviewMissing (m : String) :
    extract_category (needsReviewMissing m) = some "Needs Review" :=
  extract_category_nrLine1 _

/-- The invalid-category fallback carries category `Needs Review`. -/
lemma extract_category_needsReviewInvalid (c m : String) :
    extract_category (needsReviewInvalid c m) = some "Needs Review" :=
  extract_category_nrLine1 _

-- ### Lemmas on the retry loop

/-- One-step unfolding of `retryLoop` at positive fuel. -/
lemma retryLoop_unfold (oracle : ℕ → Except Unit String) (cats : List String)
    (maxR : ℤ) (fuel a c : ℕ) :
    retryLoop oracle cats maxR (fuel + 1) a c =
      if maxR ≤ 0 ∨ (a : ℤ) < maxR then
        match splitResponses (recoverCall (oracle c)) with
        | candidate :: _ =>
          if isValidCat cats (extract_category candidate) then
            some (some candidate, a + 1, c + 1, [RetryEvent.attempt (a + 1)])
          else
            (retryLoop oracle cats maxR fuel (a + 1) (c + 1)).map
              (fun r => (r.1, r.2.1, r.2.2.1,
                RetryEvent.attempt (a + 1) ::
                  RetryEvent.delay (min (2 ^ (a + 1 - 1)) 30) :: r.2.2.2))
        | [] =>
          (retryLoop oracle cats maxR fuel (a + 1) (c + 1)).map
            (fun r => (r.1, r.2.1, r.2.2.1,
              RetryEvent.attempt (a + 1) ::
                RetryEvent.delay (min (2 ^ (a + 1 - 1)) 30) :: r.2.2.2))
      else some (none, a, c, []) := rfl

/-- Exceptions thrown by the external function inside the retry loop are
equivalent to empty responses: the loop behaves exactly as it would with an
oracle that returns the recovered (empty-on-failure) text and never throws. -/
lemma retryLoop_recover (oracle : ℕ → Except Unit String) (cats : List String)
    (maxR : ℤ) :
    ∀ fuel a c, retryLoop oracle cats maxR fuel a c =
      retryLoop (fun n => Except.ok (recoverCall (oracle n))) cats maxR fuel a c := by
  intro fuel
  induction fuel with
  | zero => intro a c; rfl
  | succ fuel ih =>
    intro a c
    simp only [retryLoop]
    rw [show recoverCall (Except.ok (recoverCall (oracle c))) = recoverCall (oracle c)
      from rfl]
    rw [ih (a + 1) (c + 1)]

/-- A retry loop that reports a `valid_response` really validated it. -/
lemma retryLoop_valid (oracle : ℕ → Except Unit String) (cats : List String)
    (maxR : ℤ) :
    ∀ fuel a c v a2 c2 evs,
      retryLoop oracle cats maxR fuel a c = some (some v, a2, c2, evs) →
      isValidCat cats (extract_category v) = true := by
  intro fuel
  induction fuel with
  | zero =>
    intro a c v a2 c2 evs h
    exact absurd h (by simp [retryLoop])
  | succ fuel ih =>
    intro a c v a2 c2 evs h
    simp only [retryLoop] at h
    split at h
    · split at h
      · split at h
        · rename_i hvalid
          obtain ⟨hv, h2, h3, h4⟩ := by
            simpa only [Option.some.injEq, Prod.mk.injEq] using h
          subst hv
          exact hvalid
        · obtain ⟨r, hr, hfr⟩ := Option.map_eq_some'.mp h
          obtain ⟨v', a2', c2', evs'⟩ := r
          simp only [Prod.mk.injEq] at hfr
          obtain ⟨hv, h2, h3, h4⟩ := hfr
          subst hv
          exact ih _ _ _ _ _ _ hr
      · obtain ⟨r, hr, hfr⟩ := Option.map_eq_some'.mp h
        obtain ⟨v', a2', c2', evs'⟩ := r
        simp only [Prod.mk.injEq] at hfr
        obtain ⟨hv, h2, h3, h4⟩ := hfr
        subst hv
        exact ih _ _ _ _ _ _ hr
    · simp at h

/-- With a positive retry bound, the retry loop terminates within
`maxR.toNat + 1` fuel (counted from attempt counter `a`). -/
lemma retryLoop_isSome (oracle : ℕ → Except Unit String) (cats : List String)
    (maxR : ℤ) (hR : 0 < maxR) :
    ∀ fuel a c, maxR.toNat ≤ a + fuel →
      (retryLoop oracle cats maxR (fuel + 1) a c).isSome = true := by
  intro fuel
  induction fuel with
  | zero =>
    intro a c hle
    have hcond : ¬(maxR ≤ 0 ∨ (a : ℤ) < maxR) := by omega
    simp only [retryLoop, if_neg hcond, Option.isSome_some]
  | succ fuel ih =>
    intro a c hle
    by_cases hcond : maxR ≤ 0 ∨ (a : ℤ) < maxR
    · simp only [retryLoop, if_pos hcond]
      cases hsp : splitResponses (recoverCall (oracle c)) with
      | nil =>
        simp only [hsp, Option.isSome_map']
        exact ih (a + 1) (c + 1) (by omega)
      | cons cand rest =>
        simp only [hsp]
        split
        · simp
        · simp only [Option.isSome_map']
          exact ih (a + 1) (c + 1) (by omega)
    · simp only [retryLoop, if_neg hcond, Option.isSome_some]

/-- When every call yields an invalid (or empty) classification and the
bound `maxR` is positive, the loop performs exactly the remaining
`maxR.toNat - a` attempts (one external call each) and exhausts with no
valid response. -/
lemma retryLoop_exhaust (oracle : ℕ → Except Unit String) (cats : List String)
    (maxR : ℤ) (hR : 0 < maxR)
    (hInv : ∀ n cnd, (splitResponses (recoverCall (oracle n))).head? = some cnd →
      isValidCat cats (extract_category cnd) = false) :
    ∀ fuel a c, a ≤ maxR.toNat → maxR.toNat ≤ a + fuel →
      ∃ evs, retryLoop oracle cats maxR (fuel + 1) a c =
        some (none, maxR.toNat, c + (maxR.toNat - a), evs) := by
  intro fuel
  induction fuel with
  | zero =>
    intro a c ha hle
    have haeq : a = maxR.toNat := by omega
    have hcond : ¬(maxR ≤ 0 ∨ (a : ℤ) < maxR) := by omega
    refine ⟨[], ?_⟩
    simp only [retryLoop, if_neg hcond]
    rw [haeq]
    simp
  | succ fuel ih =>
    intro a c ha hle
    by_cases hstop : maxR.toNat ≤ a
    · have haeq : a = maxR.toNat := le_antisymm ha hstop
      have hcond : ¬(maxR ≤ 0 ∨ (a : ℤ) < maxR) := by omega
      refine ⟨[], ?_⟩
      simp only [retryLoop, if_neg hcond]
      rw [haeq]
      simp
    · have hcond : maxR ≤ 0 ∨ (a : ℤ) < maxR := by omega
      obtain ⟨evs, hrec⟩ := ih (a + 1) (c + 1) (by omega) (by omega)
      cases hsp : splitResponses (recoverCall (oracle c)) with
      | nil =>
        refine ⟨RetryEvent.attempt (a + 1) ::
          RetryEvent.delay (min (2 ^ (a + 1 - 1)) 30) :: evs, ?_⟩
        rw [retryLoop_unfold, if_pos hcond]
        simp only [hsp]
        rw [hrec]
        simp only [Option.map_some']
        have harith : c + 1 + (maxR.toNat - (a + 1)) = c + (maxR.toNat - a) := by
          omega
        rw [harith]
      | cons cand rest =>
        have hval : isValidCat cats (extract_category cand) = false :=
          hInv c cand (by rw [hsp]; rfl)
        refine ⟨RetryEvent.attempt (a + 1) ::
          RetryEvent.delay (min (2 ^ (a + 1 - 1)) 30) :: evs, ?_⟩
        rw [retryLoop_unfold, if_pos hcond]
        simp only [hsp]
        rw [if_neg (by simp [hval])]
        rw [hrec]
        simp only [Option.map_some']
        have harith : c + 1 + (maxR.toNat - (a + 1)) = c + (maxR.toNat - a) := by
          omega
        rw [harith]

/-- With a non-positive retry bound and calls that never produce a valid
category, the loop never terminates: it returns `none` for every fuel. -/
lemma retryLoop_nonpos_none (oracle : ℕ → Except Unit String) (cats : List String)
    (maxR : ℤ) (hR : maxR ≤ 0)
    (hInv : ∀ n cnd, (splitResponses (recoverCall (oracle n))).head? = some cnd →
      isValidCat cats (extract_category cnd) = false) :
    ∀ fuel a c, retryLoop oracle cats maxR fuel a c = none := by
  intro fuel
  induction fuel with
  | zero => intro a c; rfl
  | succ fuel ih =>
    intro a c
    simp only [retryLoop, if_pos (Or.inl hR)]
    cases hsp : splitResponses (recoverCall (oracle c)) with
    | nil => simp only [hsp, ih, Option.map_none']
    | cons cand rest =>
      have hval : isValidCat cats (extract_category cand) = false :=
        hInv c cand (by rw [hsp]; rfl)
      simp only [hsp]
      rw [if_neg (by simp [hval])]
      simp only [ih, Option.map_none']

/-- With a non-positive retry bound, the loop can only return by finding a
valid response: whenever it terminates its result is a validated text. -/
lemma retryLoop_nonpos_valid (oracle : ℕ → Except Unit String) (cats : List String)
    (maxR : ℤ) (hR : maxR ≤ 0) :
    ∀ fuel a c v a2 c2 evs,
      retryLoop oracle cats maxR fuel a c = some (v, a2, c2, evs) →
      ∃ s, v = some s ∧ isValidCat cats (extract_category s) = true := by
  intro fuel
  induction fuel with
  | zero =>
    intro a c v a2 c2 evs h
    exact absurd h (by simp [retryLoop])
  | succ fuel ih =>
    intro a c v a2 c2 evs h
    simp only [retryLoop] at h
    rw [if_pos (Or.inl hR)] at h
    split at h
    · rename_i cand rest hsp
      split at h
      · rename_i hvalid
        obtain ⟨hv, h2, h3, h4⟩ := by
          simpa only [Option.some.injEq, Prod.mk.injEq] using h
        exact ⟨cand, hv.symm, hvalid⟩
      · obtain ⟨r, hr, hfr⟩ := Option.map_eq_some'.mp h
        obtain ⟨v', a2', c2', evs'⟩ := r
        obtain ⟨hv, h2, h3, h4⟩ := by simpa only [Prod.mk.injEq] using hfr
        obtain ⟨s, hs, hvs⟩ := ih _ _ _ _ _ _ hr
        exact ⟨s, hv ▸ hs, hvs⟩
    · obtain ⟨r, hr, hfr⟩ := Option.map_eq_some'.mp h
      obtain ⟨v', a2', c2', evs'⟩ := r
      obtain ⟨hv, h2, h3, h4⟩ := by simpa only [Prod.mk.injEq] using hfr
      obtain ⟨s, hs, hvs⟩ := ih _ _ _ _ _ _ hr
      exact ⟨s, hv ▸ hs, hvs⟩

/-- Shape of the delays in any terminating run of the retry loop: a
successful run delays after every attempt but the (successful) last one; an
exhausted run delays after every attempt, the last one included.  Each delay
after attempt `j` lasts `min(2^(j-1), 30)` seconds, and no delay precedes
the first attempt. -/
lemma retryLoop_trace (oracle : ℕ → Except Unit String) (cats : List String)
    (maxR : ℤ) :
    ∀ fuel a c v a2 c2 evs,
      retryLoop oracle cats maxR fuel a c = some (v, a2, c2, evs) →
      (∀ s, v = some s → isSuccTrace (a + 1) evs = true) ∧
      (v = none → isFailTrace (a + 1) evs = true) := by
  intro fuel
  induction fuel with
  | zero =>
    intro a c v a2 c2 evs h
    exact absurd h (by simp [retryLoop])
  | succ fuel ih =>
    intro a c v a2 c2 evs h
    simp only [retryLoop] at h
    split at h
    · split at h
      · rename_i cand rest hsp
        split at h
        · obtain ⟨hv, h2, h3, h4⟩ := by
            simpa only [Option.some.injEq, Prod.mk.injEq] using h
          subst h4
          constructor
          · intro s hs
            simp [isSuccTrace]
          · intro hnone
            rw [← hv] at hnone
            exact Option.noConfusion hnone
        · obtain ⟨r, hr, hfr⟩ := Option.map_eq_some'.mp h
          obtain ⟨v', a2', c2', evs'⟩ := r
          obtain ⟨hv, h2, h3, h4⟩ := by simpa only [Prod.mk.injEq] using hfr
          subst h4
          have hih := ih _ _ _ _ _ _ hr
          constructor
          · intro s hs
            rw [← hv] at hs
            have hrec := hih.1 s hs
            simpa [isSuccTrace] using hrec
          · intro hnone
            have hrec := hih.2 (by rw [hv]; exact hnone)
            simpa [isFailTrace] using hrec
      · obtain ⟨r, hr, hfr⟩ := Option.map_eq_some'.mp h
        obtain ⟨v', a2', c2', evs'⟩ := r
        obtain ⟨hv, h2, h3, h4⟩ := by simpa only [Prod.mk.injEq] using hfr
        subst h4
        have hih := ih _ _ _ _ _ _ hr
        constructor
        · intro s hs
          rw [← hv] at hs
          have hrec := hih.1 s hs
          simpa [isSuccTrace] using hrec
        · intro hnone
          have hrec := hih.2 (by rw [hv]; exact hnone)
          simpa [isFailTrace] using hrec
    · obtain ⟨hv, h2, h3, h4⟩ := by
        simpa only [Option.some.injEq, Prod.mk.injEq] using h
      subst h4
      constructor
      · intro s hs
        rw [← hv] at hs
        exact Option.noConfusion hs
      · intro hnone
        rfl

-- ### Lemmas on the two per-batch assignment branches

/-- The mismatch branch emits exactly one result per student of the batch,
with the student ids in batch order. -/
lemma assignMismatch_fst (oracle : ℕ → Except Unit String) (cats : List String)
    (maxR : ℤ) (fuel : ℕ) :
    ∀ batch i fragments calls out c2,
      assignMismatch oracle cats maxR fuel batch i fragments calls =
        some (out, c2) →
      out.map Prod.fst = batch.map Prod.fst := by
  intro batch
  induction batch with
  | nil =>
    intro i fragments calls out c2 h
    simp only [assignMismatch] at h
    obtain ⟨h1, h2⟩ := by simpa only [Option.some.injEq, Prod.mk.injEq] using h
    subst h1
    simp
  | cons sm rest ih =>
    obtain ⟨sid, m⟩ := sm
    intro i fragments calls out c2 h
    simp only [assignMismatch] at h
    split at h
    · obtain ⟨r, hr, hfr⟩ := Option.map_eq_some'.mp h
      obtain ⟨out', c2'⟩ := r
      obtain ⟨ho, hc⟩ := by simpa only [Prod.mk.injEq] using hfr
      subst ho
      simp [ih _ _ _ _ _ hr]
    · split at h
      · exact absurd h (by simp)
      · obtain ⟨r, hr, hfr⟩ := Option.map_eq_some'.mp h
        obtain ⟨out', c2'⟩ := r
        obtain ⟨ho, hc⟩ := by simpa only [Prod.mk.injEq] using hfr
        subst ho
        simp [ih _ _ _ _ _ hr]

/-- The mismatch branch always terminates when the retry loop does. -/
lemma assignMismatch_isSome (oracle : ℕ → Except Unit String) (cats : List String)
    (maxR : ℤ) (fuel : ℕ)
    (hrl : ∀ c0, (retryLoop oracle cats maxR fuel 0 c0).isSome = true) :
    ∀ batch i fragments calls,
      (assignMismatch oracle cats maxR fuel batch i fragments calls).isSome = true := by
  intro batch
  induction batch with
  | nil => intro i fragments calls; simp [assignMismatch]
  | cons sm rest ih =>
    obtain ⟨sid, m⟩ := sm
    intro i fragments calls
    simp only [assignMismatch]
    cases hg : fragments.get? i with
    | some response =>
      simp only [Option.isSome_map']
      exact ih _ _ _
    | none =>
      cases hres : retryLoop oracle cats maxR fuel 0 calls with
      | none =>
        have hsome := hrl calls
        rw [hres] at hsome
        exact absurd hsome (by simp)
      | some r =>
        obtain ⟨vr, x, calls2, evs⟩ := r
        simp only [Option.isSome_map']
        exact ih _ _ _

/-- Every value the mismatch branch stores is a bold-stripped text. -/
lemma assignMismatch_shape (oracle : ℕ → Except Unit String) (cats : List String)
    (maxR : ℤ) (fuel : ℕ) :
    ∀ batch i fragments calls out c2,
      assignMismatch oracle cats maxR fuel batch i fragments calls =
        some (out, c2) →
      ∀ p ∈ out, ∃ r, p.2 = remove_markdown_bold r := by
  intro batch
  induction batch with
  | nil =>
    intro i fragments calls out c2 h
    obtain ⟨h1, h2⟩ := by
      simpa only [assignMismatch, Option.some.injEq, Prod.mk.injEq] using h
    subst h1
    simp
  | cons sm rest ih =>
    obtain ⟨sid, m⟩ := sm
    intro i fragments calls out c2 h
    simp only [assignMismatch] at h
    split at h
    · rename_i response hg
      obtain ⟨r, hr, hfr⟩ := Option.map_eq_some'.mp h
      obtain ⟨out', c2'⟩ := r
      obtain ⟨ho, hc⟩ := by simpa only [Prod.mk.injEq] using hfr
      subst ho
      intro p hp
      rcases List.mem_cons.mp hp with hhead | htail
      · exact ⟨response, by rw [hhead]⟩
      · exact ih _ _ _ _ _ hr p htail
    · split at h
      · exact absurd h (by simp)
      · rename_i vr x calls2 evs hres
        obtain ⟨r, hr, hfr⟩ := Option.map_eq_some'.mp h
        obtain ⟨out', c2'⟩ := r
        obtain ⟨ho, hc⟩ := by simpa only [Prod.mk.injEq] using hfr
        subst ho
        intro p hp
        rcases List.mem_cons.mp hp with hhead | htail
        · refine ⟨_, by rw [hhead]⟩
        · exact ih _ _ _ _ _ hr p htail

/-- The matched branch emits exactly one result per student of the batch,
with the student ids in batch order (given enough fragments, as at its call
site where the two lists have equal length). -/
lemma assignMatched_fst (oracle : ℕ → Except Unit String) (cats : List String)
    (maxR : ℤ) (fuel : ℕ) :
    ∀ batch fragments calls out c2, batch.length ≤ fragments.length →
      assignMatched oracle cats maxR fuel batch fragments calls =
        some (out, c2) →
      out.map Prod.fst = batch.map Prod.fst := by
  intro batch
  induction batch with
  | nil =>
    intro fragments calls out c2 hlen h
    obtain ⟨h1, h2⟩ := by
      simpa only [assignMatched, Option.some.injEq, Prod.mk.injEq] using h
    subst h1
    simp
  | cons sm rest ih =>
    obtain ⟨sid, m⟩ := sm
    intro fragments calls out c2 hlen h
    cases fragments with
    | nil => simp at hlen
    | cons f fs =>
      have hlen2 : rest.length ≤ fs.length := by
        simpa using hlen
      simp only [assignMatched] at h
      split at h
      · obtain ⟨r, hr, hfr⟩ := Option.map_eq_some'.mp h
        obtain ⟨out', c2'⟩ := r
        obtain ⟨ho, hc⟩ := by simpa only [Prod.mk.injEq] using hfr
        subst ho
        simp [ih _ _ _ _ hlen2 hr]
      · split at h
        · exact absurd h (by simp)
        · obtain ⟨r, hr, hfr⟩ := Option.map_eq_some'.mp h
          obtain ⟨out', c2'⟩ := r
          obtain ⟨ho, hc⟩ := by simpa only [Prod.mk.injEq] using hfr
          subst ho
          simp [ih _ _ _ _ hlen2 hr]

/-- The matched branch always terminates when the retry loop does. -/
lemma assignMatched_isSome (oracle : ℕ → Except Unit String) (cats : List String)
    (maxR : ℤ) (fuel : ℕ)
    (hrl : ∀ c0, (retryLoop oracle cats maxR fuel 0 c0).isSome = true) :
    ∀ batch fragments calls,
      (assignMatched oracle cats maxR fuel batch fragments calls).isSome = true := by
  intro batch
  induction batch with
  | nil => intro fragments calls; simp [assignMatched]
  | cons sm rest ih =>
    obtain ⟨sid, m⟩ := sm
    intro fragments calls
    cases fragments with
    | nil => simp [assignMatched]
    | cons f fs =>
      simp only [assignMatched]
      split
      · simp only [Option.isSome_map']
        exact ih _ _
      · cases hres : retryLoop oracle cats maxR fuel 0 calls with
        | none =>
          have hsome := hrl calls
          rw [hres] at hsome
          exact absurd hsome (by simp)
        | some r =>
          obtain ⟨vr, x, calls2, evs⟩ := r
          simp only [Option.isSome_map']
          exact ih _ _

/-- Every value the matched branch stores is the bold-stripped form of a
response text whose category, extracted before the stripping, is either a
member of the configured set or the `Needs Review` fallback value. -/
lemma assignMatched_validated (oracle : ℕ → Except Unit String)
    (cats : List String) (maxR : ℤ) (fuel : ℕ) :
    ∀ batch fragments calls out c2,
      assignMatched oracle cats maxR fuel batch fragments calls =
        some (out, c2) →
      ∀ p ∈ out, ∃ r, p.2 = remove_markdown_bold r ∧
        (isValidCat cats (extract_category r) = true ∨
          extract_category r = some "Needs Review") := by
  intro batch
  induction batch with
  | nil =>
    intro fragments calls out c2 h
    obtain ⟨h1, h2⟩ := by
      simpa only [assignMatched, Option.some.injEq, Prod.mk.injEq] using h
    subst h1
    simp
  | cons sm rest ih =>
    obtain ⟨sid, m⟩ := sm
    intro fragments calls out c2 h
    cases fragments with
    | nil =>
      obtain ⟨h1, h2⟩ := by
        simpa only [assignMatched, Option.some.injEq, Prod.mk.injEq] using h
      subst h1
      simp
    | cons f fs =>
      simp only [assignMatched] at h
      split at h
      · rename_i hvalid
        obtain ⟨r, hr, hfr⟩ := Option.map_eq_some'.mp h
        obtain ⟨out', c2'⟩ := r
        obtain ⟨ho, hc⟩ := by simpa only [Prod.mk.injEq] using hfr
        subst ho
        intro p hp
        rcases List.mem_cons.mp hp with hhead | htail
        · exact ⟨f, by rw [hhead], Or.inl hvalid⟩
        · exact ih _ _ _ _ hr p htail
      · rename_i hinvalid
        split at h
        · exact absurd h (by simp)
        · rename_i vr x calls2 evs hres
          obtain ⟨r, hr, hfr⟩ := Option.map_eq_some'.mp h
          obtain ⟨out', c2'⟩ := r
          obtain ⟨ho, hc⟩ := by simpa only [Prod.mk.injEq] using hfr
          subst ho
          intro p hp
          rcases List.mem_cons.mp hp with hhead | htail
          · cases vr with
            | some v =>
              refine ⟨v, by rw [hhead], Or.inl ?_⟩
              exact retryLoop_valid oracle cats maxR fuel 0 calls v x calls2 evs hres
            | none =>
              cases hcat : extract_category f with
              | none =>
                refine ⟨needsReviewMissing m, ?_, Or.inr ?_⟩
                · rw [hhead]
                  simp only [hcat]
                · exact extract_category_needsReviewMissing m
              | some cstr =>
                by_cases hbad : (!(cstr == "") && !(cats.contains cstr)) = true
                · refine ⟨needsReviewInvalid cstr m, ?_, Or.inr ?_⟩
                  · rw [hhead]
                    simp only [hcat, hbad, if_pos]
                  · exact extract_category_needsReviewInvalid cstr m
                · refine ⟨needsReviewMissing m, ?_, Or.inr ?_⟩
                  · rw [hhead]
                    simp only [hcat]
                    rw [if_neg hbad]
                  · exact extract_category_needsReviewMissing m
          · exact ih _ _ _ _ hr p htail

/-- Index-wise behaviour of the mismatch branch: the student at position `j`
of the batch receives fragment `i + j` directly — with no category
validation — whenever that fragment exists, and otherwise receives either a
retry result that passed validation or the Needs-Review missing-response
fallback built from its metrics. -/
lemma assignMismatch_spec (oracle : ℕ → Except Unit String) (cats : List String)
    (maxR : ℤ) (fuel : ℕ) :
    ∀ batch i fragments calls out c2,
      assignMismatch oracle cats maxR fuel batch i fragments calls =
        some (out, c2) →
      ∀ j sid m, batch.get? j = some (sid, m) →
        (∀ f, fragments.get? (i + j) = some f →
          out.get? j = some (sid, remove_markdown_bold f)) ∧
        (fragments.get? (i + j) = none →
          ∃ r, out.get? j = some (sid, remove_markdown_bold r) ∧
            (isValidCat cats (extract_category r) = true ∨
              r = needsReviewMissing m)) := by
  intro batch
  induction batch with
  | nil =>
    intro i fragments calls out c2 h j sid m hj
    simp at hj
  | cons sm rest ih =>
    obtain ⟨sid0, m0⟩ := sm
    intro i fragments calls out c2 h j sid m hj
    simp only [assignMismatch] at h
    split at h
    · rename_i response hg
      obtain ⟨r, hr, hfr⟩ := Option.map_eq_some'.mp h
      obtain ⟨out', c2'⟩ := r
      obtain ⟨ho, hc⟩ := by simpa only [Prod.mk.injEq] using hfr
      subst ho
      cases j with
      | zero =>
        obtain ⟨hs, hm⟩ := by simpa using hj
        subst hs
        subst hm
        constructor
        · intro f hf
          rw [Nat.add_zero, hg] at hf
          obtain rfl := Option.some.inj hf
          rfl
        · intro hnone
          rw [Nat.add_zero, hg] at hnone
          exact Option.noConfusion hnone
      | succ j =>
        have hj2 : rest.get? j = some (sid, m) := by simpa using hj
        have hrec := ih (i + 1) fragments calls out' c2' hr j sid m hj2
        have harith : i + (j + 1) = (i + 1) + j := by omega
        rw [harith]
        constructor
        · intro f hf
          have := hrec.1 f hf
          simpa using this
        · intro hnone
          obtain ⟨r, hor, hp⟩ := hrec.2 hnone
          exact ⟨r, by simpa using hor, hp⟩
    · rename_i hg
      split at h
      · exact absurd h (by simp)
      · rename_i vr x calls2 evs hres
        obtain ⟨r, hr, hfr⟩ := Option.map_eq_some'.mp h
        obtain ⟨out', c2'⟩ := r
        obtain ⟨ho, hc⟩ := by simpa only [Prod.mk.injEq] using hfr
        subst ho
        cases j with
        | zero =>
          obtain ⟨hs, hm⟩ := by simpa using hj
          subst hs
          subst hm
          constructor
          · intro f hf
            rw [Nat.add_zero, hg] at hf
            exact Option.noConfusion hf
          · intro hnone
            cases vr with
            | some v =>
              refine ⟨v, rfl, Or.inl ?_⟩
              exact retryLoop_valid oracle cats maxR fuel 0 calls v x calls2 evs hres
            | none =>
              exact ⟨needsReviewMissing m0, rfl, Or.inr rfl⟩
        | succ j =>
          have hj2 : rest.get? j = some (sid, m) := by simpa using hj
          have hrec := ih (i + 1) fragments calls2 out' c2' hr j sid m hj2
          have harith : i + (j + 1) = (i + 1) + j := by omega
          rw [harith]
          constructor
          · intro f hf
            have := hrec.1 f hf
            simpa using this
          · intro hnone
            obtain ⟨r, hor, hp⟩ := hrec.2 hnone
            exact ⟨r, by simpa using hor, hp⟩

-- ### Lemmas on the outer batch loop and batching

/-- A completed run emits the student ids of all processed batches, in
order. -/
lemma processBatches_fst (oracle : ℕ → Except Unit String) (cats : List String)
    (maxR : ℤ) (fuel : ℕ) :
    ∀ batches calls res,
      processBatches oracle cats maxR fuel batches calls =
        some (Except.ok res) →
      res.map Prod.fst = batches.flatten.map Prod.fst := by
  intro batches
  induction batches with
  | nil =>
    intro calls res h
    obtain h1 := by
      simpa only [processBatches, Option.some.injEq, Except.ok.injEq] using h
    subst h1
    simp
  | cons batch rest ih =>
    intro calls res h
    simp only [processBatches] at h
    obtain ⟨s, hs⟩ : ∃ s, oracle calls = Except.ok s := by
      cases hx : oracle calls with
      | error e => rw [hx] at h; simp at h
      | ok s => exact ⟨s, rfl⟩
    simp only [hs] at h
    by_cases hlen : (splitResponses s).length ≠ batch.length
    · rw [if_pos hlen] at h
      cases hassign : assignMismatch oracle cats maxR fuel batch 0
          (splitResponses s) (calls + 1) with
      | none => rw [hassign] at h; simp at h
      | some r =>
        obtain ⟨out, calls2⟩ := r
        simp only [hassign] at h
        cases hrec : processBatches oracle cats maxR fuel rest calls2 with
        | none => rw [hrec] at h; simp at h
        | some e =>
          cases e with
          | error e2 => rw [hrec] at h; simp at h
          | ok outRest =>
            simp only [hrec] at h
            obtain hres := by
              simpa only [Option.some.injEq, Except.ok.injEq] using h
            subst hres
            simp only [List.map_append, List.flatten_cons, List.map_append]
            rw [assignMismatch_fst oracle cats maxR fuel _ _ _ _ _ _ hassign,
              ih calls2 outRest hrec]
    · rw [if_neg hlen] at h
      push_neg at hlen
      cases hassign : assignMatched oracle cats maxR fuel batch
          (splitResponses s) (calls + 1) with
      | none => rw [hassign] at h; simp at h
      | some r =>
        obtain ⟨out, calls2⟩ := r
        simp only [hassign] at h
        cases hrec : processBatches oracle cats maxR fuel rest calls2 with
        | none => rw [hrec] at h; simp at h
        | some e =>
          cases e with
          | error e2 => rw [hrec] at h; simp at h
          | ok outRest =>
            simp only [hrec] at h
            obtain hres := by
              simpa only [Option.some.injEq, Except.ok.injEq] using h
            subst hres
            simp only [List.map_append, List.flatten_cons, List.map_append]
            rw [assignMatched_fst oracle cats maxR fuel _ _ _ _ _
              (le_of_eq hlen.symm) hassign, ih calls2 outRest hrec]

/-- When the oracle never throws and the retry loop terminates, the whole
run completes normally. -/
lemma processBatches_exists (oracle : ℕ → Except Unit String) (cats : List String)
    (maxR : ℤ) (fuel : ℕ)
    (hok : ∀ n, ∃ s, oracle n = Except.ok s)
    (hrl : ∀ c0, (retryLoop oracle cats maxR fuel 0 c0).isSome = true) :
    ∀ batches calls, ∃ res,
      processBatches oracle cats maxR fuel batches calls =
        some (Except.ok res) := by
  intro batches
  induction batches with
  | nil => intro calls; exact ⟨[], rfl⟩
  | cons batch rest ih =>
    intro calls
    obtain ⟨s, hs⟩ := hok calls
    simp only [processBatches, hs]
    by_cases hlen : (splitResponses s).length ≠ batch.length
    · rw [if_pos hlen]
      obtain ⟨r, hassign⟩ := Option.isSome_iff_exists.mp
        (assignMismatch_isSome oracle cats maxR fuel hrl batch 0
          (splitResponses s) (calls + 1))
      obtain ⟨out, calls2⟩ := r
      obtain ⟨resR, hrec⟩ := ih calls2
      rw [hassign]
      simp only [hrec]
      exact ⟨out ++ resR, rfl⟩
    · rw [if_neg hlen]
      obtain ⟨r, hassign⟩ := Option.isSome_iff_exists.mp
        (assignMatched_isSome oracle cats maxR fuel hrl batch
          (splitResponses s) (calls + 1))
      obtain ⟨out, calls2⟩ := r
      obtain ⟨resR, hrec⟩ := ih calls2
      rw [hassign]
      simp only [hrec]
      exact ⟨out ++ resR, rfl⟩

/-- Every value stored by a completed run is a bold-stripped text. -/
lemma processBatches_shape (oracle : ℕ → Except Unit String) (cats : List String)
    (maxR : ℤ) (fuel : ℕ) :
    ∀ batches calls res,
      processBatches oracle cats maxR fuel batches calls =
        some (Except.ok res) →
      ∀ p ∈ res, ∃ r, p.2 = remove_markdown_bold r := by
  intro batches
  induction batches with
  | nil =>
    intro calls res h
    obtain h1 := by
      simpa only [processBatches, Option.some.injEq, Except.ok.injEq] using h
    subst h1
    simp
  | cons batch rest ih =>
    intro calls res h
    simp only [processBatches] at h
    obtain ⟨s, hs⟩ : ∃ s, oracle calls = Except.ok s := by
      cases hx : oracle calls with
      | error e => rw [hx] at h; simp at h
      | ok s => exact ⟨s, rfl⟩
    simp only [hs] at h
    by_cases hlen : (splitResponses s).length ≠ batch.length
    · rw [if_pos hlen] at h
      cases hassign : assignMismatch oracle cats maxR fuel batch 0
          (splitResponses s) (calls + 1) with
      | none => rw [hassign] at h; simp at h
      | some r =>
        obtain ⟨out, calls2⟩ := r
        simp only [hassign] at h
        cases hrec : processBatches oracle cats maxR fuel rest calls2 with
        | none => rw [hrec] at h; simp at h
        | some e =>
          cases e with
          | error e2 => rw [hrec] at h; simp at h
          | ok outRest =>
            simp only [hrec] at h
            obtain hres := by
              simpa only [Option.some.injEq, Except.ok.injEq] using h
            subst hres
            intro p hp
            rcases List.mem_append.mp hp with hl | hr2
            · exact assignMismatch_shape oracle cats maxR fuel _ _ _ _ _ _
                hassign p hl
            · exact ih calls2 outRest hrec p hr2
    · rw [if_neg hlen] at h
      cases hassign : assignMatched oracle cats maxR fuel batch
          (splitResponses s) (calls + 1) with
      | none => rw [hassign] at h; simp at h
      | some r =>
        obtain ⟨out, calls2⟩ := r
        simp only [hassign] at h
        cases hrec : processBatches oracle cats maxR fuel rest calls2 with
        | none => rw [hrec] at h; simp at h
        | some e =>
          cases e with
          | error e2 => rw [hrec] at h; simp at h
          | ok outRest =>
            simp only [hrec] at h
            obtain hres := by
              simpa only [Option.some.injEq, Except.ok.injEq] using h
            subst hres
            intro p hp
            rcases List.mem_append.mp hp with hl | hr2
            · obtain ⟨r, hrr, hval⟩ := assignMatched_validated oracle cats maxR
                fuel _ _ _ _ _ hassign p hl
              exact ⟨r, hrr⟩
            · exact ih calls2 outRest hrec p hr2

/-- Concatenating the batches gives back the original student list. -/
lemma chunkAux_flatten {α : Type} (B : ℕ) (hB : 0 < B) :
    ∀ fuel (l : List α), l.length ≤ fuel → (chunkAux B fuel l).flatten = l := by
  intro fuel
  induction fuel with
  | zero =>
    intro l hl
    cases l with
    | nil => rfl
    | cons x xs => simp at hl
  | succ fuel ih =>
    intro l hl
    cases l with
    | nil => rfl
    | cons x xs =>
      simp only [List.length_cons] at hl
      have hdl : (List.drop B (x :: xs)).length ≤ fuel := by
        rw [List.length_drop]
        simp only [List.length_cons]
        omega
      simp only [chunkAux, List.flatten_cons]
      rw [ih _ hdl]
      exact List.take_append_drop B (x :: xs)

/-- `chunkList` partitions the student list for every positive batch size. -/
lemma chunkList_flatten {α : Type} (B : ℕ) (hB : 0 < B) (l : List α) :
    (chunkList B l).flatten = l :=
  chunkAux_flatten B hB l.length l le_rfl

-- ### Lemmas on the metrics loop

/-- One loop iteration increments `missing + graded_count` by at most one
(each coursework item feeds at most one of the two counters) and `late` by
at most one. -/
lemma stepMetrics_counts (acc : MetricsAcc) (it : CourseworkItem × Option Submission) :
    (stepMetrics acc it).missing + (stepMetrics acc it).graded_count ≤
      acc.missing + acc.graded_count + 1 ∧
    (stepMetrics acc it).late ≤ acc.late + 1 := by
  obtain ⟨cw, osub⟩ := it
  cases osub with
  | none => simp [stepMetrics]; omega
  | some sub =>
    obtain ⟨lt, og⟩ := sub
    obtain ⟨mp⟩ := cw
    cases lt <;> cases og <;> cases mp <;>
      simp only [stepMetrics] <;> split_ifs <;> simp <;> omega

/-- Loop version of `stepMetrics_counts`. -/
lemma metricsLoop_counts :
    ∀ (items : List (CourseworkItem × Option Submission)) (acc : MetricsAcc),
      (metricsLoop items acc).missing + (metricsLoop items acc).graded_count ≤
        acc.missing + acc.graded_count + items.length ∧
      (metricsLoop items acc).late ≤ acc.late + items.length := by
  intro items
  induction items with
  | nil => intro acc; simp [metricsLoop]
  | cons it rest ih =>
    intro acc
    simp only [metricsLoop, List.length_cons]
    obtain ⟨hs1, hs2⟩ := stepMetrics_counts acc it
    obtain ⟨hr1, hr2⟩ := ih (stepMetrics acc it)
    omega

/-- One loop iteration preserves `0 ≤ earned ≤ possible` for both pairs of
totals, provided the item's assigned grade (when present) lies between 0 and
the item's maximum points. -/
lemma stepMetrics_totals (acc : MetricsAcc) (it : CourseworkItem × Option Submission)
    (hit : ∀ sub, it.2 = some sub → ∀ a, sub.assignedGrade = some a →
      0 ≤ a ∧ ∀ p, it.1.maxPoints = some p → a ≤ p)
    (h1 : 0 ≤ acc.total_earned_submitted)
    (h2 : acc.total_earned_submitted ≤ acc.total_possible_submitted)
    (h3 : 0 ≤ acc.total_earned_all)
    (h4 : acc.total_earned_all ≤ acc.total_possible_all) :
    0 ≤ (stepMetrics acc it).total_earned_submitted ∧
    (stepMetrics acc it).total_earned_submitted ≤
      (stepMetrics acc it).total_possible_submitted ∧
    0 ≤ (stepMetrics acc it).total_earned_all ∧
    (stepMetrics acc it).total_earned_all ≤
      (stepMetrics acc it).total_possible_all := by
  obtain ⟨cw, osub⟩ := it
  cases osub with
  | none => simpa [stepMetrics] using ⟨h1, h2, h3, h4⟩
  | some sub =>
    obtain ⟨lt, og⟩ := sub
    obtain ⟨mp⟩ := cw
    cases og with
    | none =>
      cases mp with
      | none =>
        cases lt <;> simp only [stepMetrics] <;>
          exact ⟨h1, h2, h3, h4⟩
      | some p =>
        cases lt <;> simp only [stepMetrics] <;> split_ifs <;>
          refine ⟨?_, ?_, ?_, ?_⟩ <;> try simp
        all_goals linarith
    | some a =>
      obtain ⟨ha0, hap⟩ := hit ⟨lt, some a⟩ rfl a rfl
      cases mp with
      | none =>
        cases lt <;> simp only [stepMetrics] <;> split_ifs <;>
          exact ⟨h1, h2, h3, h4⟩
      | some p =>
        have hap2 : a ≤ p := hap p rfl
        cases lt <;> simp only [stepMetrics] <;> split_ifs <;>
          refine ⟨?_, ?_, ?_, ?_⟩ <;> try simp
        all_goals linarith

/-- Loop version of `stepMetrics_totals`, from the zero accumulator. -/
lemma metricsLoop_totals :
    ∀ (items : List (CourseworkItem × Option Submission)) (acc : MetricsAcc),
      (∀ it ∈ items, ∀ sub, it.2 = some sub → ∀ a, sub.assignedGrade = some a →
        0 ≤ a ∧ ∀ p, it.1.maxPoints = some p → a ≤ p) →
      0 ≤ acc.total_earned_submitted →
      acc.total_earned_submitted ≤ acc.total_possible_submitted →
      0 ≤ acc.total_earned_all →
      acc.total_earned_all ≤ acc.total_possible_all →
      0 ≤ (metricsLoop items acc).total_earned_submitted ∧
      (metricsLoop items acc).total_earned_submitted ≤
        (metricsLoop items acc).total_possible_submitted ∧
      0 ≤ (metricsLoop items acc).total_earned_all ∧
      (metricsLoop items acc).total_earned_all ≤
        (metricsLoop items acc).total_possible_all := by
  intro items
  induction items with
  | nil =>
    intro acc hits h1 h2 h3 h4
    exact ⟨h1, h2, h3, h4⟩
  | cons it rest ih =>
    intro acc hits h1 h2 h3 h4
    obtain ⟨s1, s2, s3, s4⟩ := stepMetrics_totals acc it
      (hits it (by simp)) h1 h2 h3 h4
    exact ih (stepMetrics acc it) (fun it2 h2m => hits it2 (by simp [h2m]))
      s1 s2 s3 s4

/-- An item with no submission, or with an absent or non-positive maximum,
leaves both `possible` totals unchanged. -/
lemma stepMetrics_unqualified (acc : MetricsAcc)
    (it : CourseworkItem × Option Submission)
    (hit : it.2 = none ∨ ∀ p, it.1.maxPoints = some p → ¬(0 < p)) :
    (stepMetrics acc it).total_possible_submitted =
      acc.total_possible_submitted ∧
    (stepMetrics acc it).total_possible_all = acc.total_possible_all := by
  obtain ⟨cw, osub⟩ := it
  cases osub with
  | none => exact ⟨rfl, rfl⟩
  | some sub =>
    rcases hit with hno | hmp
    · exact Option.noConfusion hno
    · obtain ⟨lt, og⟩ := sub
      obtain ⟨mp⟩ := cw
      cases mp with
      | none =>
        cases og <;> cases lt <;> simp only [stepMetrics] <;> split_ifs <;>
          exact ⟨rfl, rfl⟩
      | some p =>
        have hp : ¬(0 < p) := hmp p rfl
        cases og <;> cases lt <;> simp only [stepMetrics] <;> split_ifs <;>
          exact ⟨rfl, rfl⟩

/-- Loop version of `stepMetrics_unqualified`. -/
lemma metricsLoop_unqualified :
    ∀ (items : List (CourseworkItem × Option Submission)) (acc : MetricsAcc),
      (∀ it ∈ items, it.2 = none ∨ ∀ p, it.1.maxPoints = some p → ¬(0 < p)) →
      (metricsLoop items acc).total_possible_submitted =
        acc.total_possible_submitted ∧
      (metricsLoop items acc).total_possible_all = acc.total_possible_all := by
  intro items
  induction items with
  | nil => intro acc hits; exact ⟨rfl, rfl⟩
  | cons it rest ih =>
    intro acc hits
    obtain ⟨u1, u2⟩ := stepMetrics_unqualified acc it (hits it (by simp))
    obtain ⟨v1, v2⟩ := ih (stepMetrics acc it)
      (fun it2 h2m => hits it2 (by simp [h2m]))
    exact ⟨v1.trans u1, v2.trans u2⟩

-- ### Claim theorems

/-- C10: for every student record produced by the metrics computation,
`total_assignments` equals the coursework count, `missing`, `late` and
`graded_count` are each at most `total_assignments`, and
`missing + graded_count ≤ total_assignments` (each coursework item feeds at
most one of the two counters). -/
theorem claim_C10 (items : List (CourseworkItem × Option Submission)) :
    (analyseMetrics items).total_assignments = items.length ∧
    (analyseMetrics items).missing ≤ (analyseMetrics items).total_assignments ∧
    (analyseMetrics items).late ≤ (analyseMetrics items).total_assignments ∧
    (analyseMetrics items).graded_count ≤
      (analyseMetrics items).total_assignments ∧
    (analyseMetrics items).missing + (analyseMetrics items).graded_count ≤
      (analyseMetrics items).total_assignments := by
  obtain ⟨hc, hl⟩ := metricsLoop_counts items initAcc
  have h0m : initAcc.missing = 0 := rfl
  have h0g : initAcc.graded_count = 0 := rfl
  have h0l : initAcc.late = 0 := rfl
  simp only [h0m, h0g, h0l] at hc hl
  refine ⟨rfl, ?_, ?_, ?_, ?_⟩ <;> simp only [analyseMetrics] <;> omega

/-- C5: the spec requires a grade-0 submission and an absent submission to
contribute identically to `average_all` (both adding the item's maximum to
the denominator with 0 earned) and identically to `missing`; the code keeps
the `missing` increments identical but skips the denominator contribution
entirely when no submission record exists, so `average_all` differs: with a
10/10 item plus one missing item, a grade-0 record yields 50 while an
absent record yields 100. -/
theorem claim_C5_failing :
    (analyseMetrics [(⟨some 10⟩, some ⟨false, some 10⟩),
      (⟨some 10⟩, some ⟨false, some 0⟩)]).average_all = 50 ∧
    (analyseMetrics [(⟨some 10⟩, some ⟨false, some 10⟩),
      (⟨some 10⟩, none)]).average_all = 100 ∧
    (analyseMetrics [(⟨some 10⟩, some ⟨false, some 10⟩),
      (⟨some 10⟩, some ⟨false, some 0⟩)]).missing = 1 ∧
    (analyseMetrics [(⟨some 10⟩, some ⟨false, some 10⟩),
      (⟨some 10⟩, none)]).missing = 1 ∧
    (50 : ℚ) ≠ 100 := by
  refine ⟨?_, ?_, ?_, ?_, by norm_num⟩ <;>
    norm_num [analyseMetrics, metricsLoop, stepMetrics, initAcc]

/-- C6 as stated is false: with a submission whose assigned grade exceeds
the maximum points (10-point item, grade 20), `average_submitted` is 200,
above the claimed upper bound of 100. -/
theorem claim_C6_counterexample :
    (analyseMetrics [(⟨some 10⟩, some ⟨false, some 20⟩)]).average_submitted
        = 200 ∧
    ¬((analyseMetrics [(⟨some 10⟩,
      some ⟨false, some 20⟩)]).average_submitted ≤ 100) := by
  constructor <;> norm_num [analyseMetrics, metricsLoop, stepMetrics, initAcc]

/-- C6 amended: provided every assigned grade is non-negative and bounded by
its item's maximum points, both averages lie in [0, 100]; and when no item
carries a submission together with a positive maximum, both averages are
exactly 0 (the division-by-zero guards). -/
theorem claim_C6 (items : List (CourseworkItem × Option Submission))
    (hg : ∀ it ∈ items, ∀ sub, it.2 = some sub →
      ∀ a, sub.assignedGrade = some a →
        0 ≤ a ∧ ∀ p, it.1.maxPoints = some p → a ≤ p) :
    0 ≤ (analyseMetrics items).average_submitted ∧
    (analyseMetrics items).average_submitted ≤ 100 ∧
    0 ≤ (analyseMetrics items).average_all ∧
    (analyseMetrics items).average_all ≤ 100 ∧
    ((∀ it ∈ items, it.2 = none ∨ ∀ p, it.1.maxPoints = some p → ¬(0 < p)) →
      (analyseMetrics items).average_submitted = 0 ∧
      (analyseMetrics items).average_all = 0) := by
  obtain ⟨h1, h2, h3, h4⟩ := metricsLoop_totals items initAcc hg
    (by norm_num [initAcc]) (by norm_num [initAcc]) (by norm_num [initAcc])
    (by norm_num [initAcc])
  simp only [analyseMetrics]
  refine ⟨?_, ?_, ?_, ?_, ?_⟩
  · split_ifs with h
    · exact mul_nonneg (div_nonneg h1 (le_of_lt h)) (by norm_num)
    · exact le_refl 0
  · split_ifs with h
    · calc (metricsLoop items initAcc).total_earned_submitted /
            (metricsLoop items initAcc).total_possible_submitted * 100
          ≤ 1 * 100 :=
            mul_le_mul_of_nonneg_right ((div_le_one h).mpr h2) (by norm_num)
      _ = 100 := one_mul 100
    · norm_num
  · split_ifs with h
    · exact mul_nonneg (div_nonneg h3 (le_of_lt h)) (by norm_num)
    · exact le_refl 0
  · split_ifs with h
    · calc (metricsLoop items initAcc).total_earned_all /
            (metricsLoop items initAcc).total_possible_all * 100
          ≤ 1 * 100 :=
            mul_le_mul_of_nonneg_right ((div_le_one h).mpr h4) (by norm_num)
      _ = 100 := one_mul 100
    · norm_num
  · intro hq
    obtain ⟨u1, u2⟩ := metricsLoop_unqualified items initAcc hq
    have hz1 : (metricsLoop items initAcc).total_possible_submitted = 0 := by
      rw [u1]; rfl
    have hz2 : (metricsLoop items initAcc).total_possible_all = 0 := by
      rw [u2]; rfl
    rw [hz1, hz2]
    norm_num

/-- C6 witness instance: a 10-point item graded 5 keeps both averages in
bounds. -/
theorem claim_C6_witness :
    0 ≤ (analyseMetrics [(⟨some 10⟩,
        some ⟨false, some 5⟩)]).average_submitted ∧
    (analyseMetrics [(⟨some 10⟩, some ⟨false, some 5⟩)]).average_submitted
      ≤ 100 := by
  have hg : ∀ it ∈ ([(⟨some 10⟩, some ⟨false, some 5⟩)] :
      List (CourseworkItem × Option Submission)), ∀ sub, it.2 = some sub →
      ∀ a, sub.assignedGrade = some a →
        0 ≤ a ∧ ∀ p, it.1.maxPoints = some p → a ≤ p := by
    intro it hit sub hsub a ha
    simp only [List.mem_singleton] at hit
    subst hit
    obtain rfl := Option.some.inj hsub
    obtain rfl := Option.some.inj ha
    refine ⟨by norm_num, ?_⟩
    intro p hp
    obtain rfl := Option.some.inj hp
    norm_num
  exact ⟨(claim_C6 _ hg).1, (claim_C6 _ hg).2.1⟩

/-- C9: the markdown-bold stripper is idempotent, its output never contains
the substring `**` (stated both via `hasDoubleStar` and as the absence of an
explicit decomposition), and every value stored in a completed results
mapping is a fixed point of the stripper (i.e. had the transform applied). -/
theorem claim_C9 :
    (∀ t : String,
      remove_markdown_bold (remove_markdown_bold t) = remove_markdown_bold t) ∧
    (∀ t : String, hasDoubleStar (remove_markdown_bold t).data = false) ∧
    (∀ t : String,
      ¬ ∃ l1 l2, (remove_markdown_bold t).data = l1 ++ '*' :: '*' :: l2) ∧
    (∀ (oracle : ℕ → Except Unit String) students cats B maxR fuel res,
      generate_reports oracle students cats B maxR fuel =
        some (Except.ok res) →
      ∀ p ∈ res, remove_markdown_bold p.2 = p.2) := by
  have hidem : ∀ t : String,
      remove_markdown_bold (remove_markdown_bold t) = remove_markdown_bold t := by
    intro t
    show String.mk (removeBoldAux (removeBoldAux t.data)) =
      String.mk (removeBoldAux t.data)
    rw [removeBoldAux_idem]
  refine ⟨hidem, ?_, ?_, ?_⟩
  · intro t
    exact hasDoubleStar_removeBoldAux t.data
  · rintro t ⟨l1, l2, hl⟩
    have hds := hasDoubleStar_removeBoldAux t.data
    have hl2 : removeBoldAux t.data = l1 ++ '*' :: '*' :: l2 := hl
    rw [hl2, hasDoubleStar_of_parts] at hds
    exact Bool.noConfusion hds
  · intro oracle students cats B maxR fuel res h p hp
    obtain ⟨r, hr⟩ := processBatches_shape oracle cats maxR fuel
      (chunkList B students) 0 res h p hp
    rw [hr]
    exact hidem r

/-- C9 witness instance: the value stored by a concrete completed run is a
fixed point of the stripper. -/
theorem claim_C9_witness :
    remove_markdown_bold "Category: Good\nfine" = "Category: Good\nfine" := by
  refine claim_C9.2.2.2 (fun _ => Except.ok "Category: Good\nfine")
    [("s1", "m1")] ["Good"] 1 1 2 [("s1", "Category: Good\nfine")] rfl
    ("s1", "Category: Good\nfine") (by simp)

/-- C1: for every student list, positive batch size and positive retry
bound, and any external function that always returns (however empty,
malformed or invalid its output), the run completes with exactly one result
per input student, ids in input order. -/
theorem claim_C1 (oracle : ℕ → Except Unit String)
    (students : List (String × String)) (cats : List String) (B : ℕ)
    (maxR : ℤ) (hB : 0 < B) (hR : 0 < maxR)
    (hok : ∀ n, ∃ s, oracle n = Except.ok s)
    (hne : students ≠ []) :
    ∃ res, generate_reports oracle students cats B maxR (maxR.toNat + 1) =
        some (Except.ok res) ∧
      res.map Prod.fst = students.map Prod.fst := by
  have hrl : ∀ c0,
      (retryLoop oracle cats maxR (maxR.toNat + 1) 0 c0).isSome = true :=
    fun c0 => retryLoop_isSome oracle cats maxR hR maxR.toNat 0 c0 (by omega)
  obtain ⟨res, hres⟩ := processBatches_exists oracle cats maxR (maxR.toNat + 1)
    hok hrl (chunkList B students) 0
  refine ⟨res, hres, ?_⟩
  have hfst := processBatches_fst oracle cats maxR (maxR.toNat + 1)
    (chunkList B students) 0 res hres
  rw [hfst, chunkList_flatten B hB students]

/-- C1 witness instance: one student, batch size 1, retry bound 1, constant
valid answer. -/
theorem claim_C1_witness :
    ∃ res, generate_reports (fun _ => Except.ok "Category: Good\nfine")
        [("s1", "m1")] ["Good"] 1 1 2 = some (Except.ok res) ∧
      res.map Prod.fst = [("s1", "m1")].map Prod.fst := by
  exact claim_C1 (fun _ => Except.ok "Category: Good\nfine") [("s1", "m1")]
    ["Good"] 1 1 (by norm_num) (by norm_num)
    (fun n => ⟨"Category: Good\nfine", rfl⟩) (by simp)

/-- C2 as stated is false: the initial per-batch call is made outside any
`try`, so an exception raised there propagates out of `generate_reports`
instead of being absorbed. -/
theorem claim_C2_counterexample :
    generate_reports (fun _ => Except.error ()) [("s1", "m1"), ("s2", "m2")]
      ["Good"] 2 5 6 = some (Except.error ()) := rfl

/-- C2 amended: exceptions raised by the single-student retry calls are
caught and treated exactly as empty responses — the retry loop behaves
identically under the recovered, never-throwing oracle; only the initial
per-batch call can propagate an exception. -/
theorem claim_C2 :
    ∀ (oracle : ℕ → Except Unit String) (cats : List String) (maxR : ℤ)
      (fuel a c : ℕ),
      retryLoop oracle cats maxR fuel a c =
        retryLoop (fun n => Except.ok (recoverCall (oracle n))) cats maxR
          fuel a c :=
  fun oracle cats maxR fuel a c => retryLoop_recover oracle cats maxR fuel a c

/-- C3 as stated is false: on a fragment-count mismatch (one fragment for a
batch of two) the first student is assigned the fragment directly, with no
category validation — here a fragment whose category `Bogus` is not in the
allowed set is stored as-is; only the student beyond the fragment count goes
through the retry path. -/
theorem claim_C3_counterexample :
    generate_reports (fun _ => Except.ok "Category: Bogus\nReport")
        [("s1", "mA"), ("s2", "mB")] ["Good"] 2 1 2 =
      some (Except.ok [("s1", "Category: Bogus\nReport"),
        ("s2", remove_markdown_bold (needsReviewMissing "mB"))]) ∧
    isValidCat ["Good"] (extract_category "Category: Bogus\nReport") = false :=
  ⟨rfl, rfl⟩

/-- C3 amended: on a count mismatch, the student at index `j` receives
fragment `j` directly (bold-stripped, unvalidated) whenever it exists, and
only students at indices beyond the fragment count go through the
retry-and-validate path, ending in a validated response or the Needs-Review
fallback. -/
theorem claim_C3 (oracle : ℕ → Except Unit String) (cats : List String)
    (maxR : ℤ) (fuel : ℕ) (batch : List (String × String))
    (fragments : List String) (calls : ℕ) (out : List (String × String))
    (c2 : ℕ)
    (h : assignMismatch oracle cats maxR fuel batch 0 fragments calls =
      some (out, c2)) :
    out.map Prod.fst = batch.map Prod.fst ∧
    ∀ j sid m, batch.get? j = some (sid, m) →
      (∀ f, fragments.get? j = some f →
        out.get? j = some (sid, remove_markdown_bold f)) ∧
      (fragments.get? j = none →
        ∃ r, out.get? j = some (sid, remove_markdown_bold r) ∧
          (isValidCat cats (extract_category r) = true ∨
            r = needsReviewMissing m)) := by
  refine ⟨assignMismatch_fst oracle cats maxR fuel batch 0 fragments calls
    out c2 h, ?_⟩
  intro j sid m hj
  have hspec := assignMismatch_spec oracle cats maxR fuel batch 0 fragments
    calls out c2 h j sid m hj
  simpa using hspec

/-- C3 witness instance: with one fragment available, the single student
takes it directly. -/
theorem claim_C3_witness :
    ([("s1", remove_markdown_bold "frag")] : List (String × String)).get? 0 =
      some ("s1", remove_markdown_bold "frag") := by
  have h := claim_C3 (fun _ => Except.ok "x") ["G"] 1 2 [("s1", "m1")]
    ["frag"] 0 [("s1", remove_markdown_bold "frag")] 0 rfl
  exact (h.2 0 "s1" "m1" rfl).1 "frag" rfl

/-- C4 as stated is false: bold-stripping is applied after validation, and
it can rewrite the response so that the `Category:` line of the stored text
carries a value outside the allowed set — here the stored text's category
reads `junk` although the accepted (pre-stripping) response validated as
`Good`. -/
theorem claim_C4_counterexample :
    generate_reports (fun _ => Except.ok "**Category:** junk\nCategory: Good")
        [("s1", "m1")] ["Good"] 1 5 6 =
      some (Except.ok [("s1", "Category: junk\nCategory: Good")]) ∧
    extract_category "Category: junk\nCategory: Good" = some "junk" ∧
    (["Good"] : List String).contains "junk" = false :=
  ⟨rfl, rfl, rfl⟩

/-- C4 amended: every value stored by the matched (equal-count) branch is
the bold-stripped form of a response whose category, read before stripping,
is a member of the configured set or the Needs-Review fallback value; the
mismatch branch additionally stores unvalidated fragments (see the C3
analysis). -/
theorem claim_C4 (oracle : ℕ → Except Unit String) (cats : List String)
    (maxR : ℤ) (fuel : ℕ) (batch : List (String × String))
    (fragments : List String) (calls : ℕ) (out : List (String × String))
    (c2 : ℕ)
    (h : assignMatched oracle cats maxR fuel batch fragments calls =
      some (out, c2)) :
    ∀ p ∈ out, ∃ r, p.2 = remove_markdown_bold r ∧
      (isValidCat cats (extract_category r) = true ∨
        extract_category r = some "Needs Review") :=
  assignMatched_validated oracle cats maxR fuel batch fragments calls out c2 h

/-- C4 witness instance: the value stored for a directly validated fragment. -/
theorem claim_C4_witness :
    ∃ r, (("s1", "Category: Good\nfine") : String × String).2 =
        remove_markdown_bold r ∧
      (isValidCat ["Good"] (extract_category r) = true ∨
        extract_category r = some "Needs Review") := by
  exact claim_C4 (fun _ => Except.ok "x") ["Good"] 1 2 [("s1", "m1")]
    ["Category: Good\nfine"] 0 [("s1", "Category: Good\nfine")] 0 rfl
    ("s1", "Category: Good\nfine") (by simp)

/-- C7: with a positive retry bound `maxR` and an external function whose
every call yields a missing or invalid category, the per-student retry loop
makes exactly `maxR` attempts (one external call each) and reports no valid
response; the caller then stores the Needs-Review fallback, whose category
is `Needs Review` and whose body ends with the student's serialised metrics.
With a non-positive bound the loop never terminates on such a function, and
in general it can then only stop at a response that passed validation. -/
theorem claim_C7 (oracle : ℕ → Except Unit String) (cats : List String)
    (maxR : ℤ) (sid m f : String) (calls : ℕ)
    (hR : 0 < maxR)
    (hInv : ∀ n cnd, (splitResponses (recoverCall (oracle n))).head? =
      some cnd → isValidCat cats (extract_category cnd) = false)
    (hf : extract_category f = none) :
    (∃ evs, retryLoop oracle cats maxR (maxR.toNat + 1) 0 calls =
      some (none, maxR.toNat, calls + maxR.toNat, evs)) ∧
    assignMatched oracle cats maxR (maxR.toNat + 1) [(sid, m)] [f] calls =
      some ([(sid, remove_markdown_bold (needsReviewMissing m))],
        calls + maxR.toNat) ∧
    extract_category (needsReviewMissing m) = some "Needs Review" ∧
    (∃ pre, needsReviewMissing m = pre ++ m) ∧
    (∀ maxR2 : ℤ, maxR2 ≤ 0 → ∀ fuel a c,
      retryLoop oracle cats maxR2 fuel a c = none) ∧
    (∀ (maxR2 : ℤ) (oracle2 : ℕ → Except Unit String), maxR2 ≤ 0 →
      ∀ fuel a c v a2 c2 evs,
        retryLoop oracle2 cats maxR2 fuel a c = some (v, a2, c2, evs) →
        ∃ s, v = some s ∧ isValidCat cats (extract_category s) = true) := by
  obtain ⟨evs, hevs⟩ := retryLoop_exhaust oracle cats maxR hR hInv
    maxR.toNat 0 calls (by omega) (by omega)
  have hevs2 : retryLoop oracle cats maxR (maxR.toNat + 1) 0 calls =
      some (none, maxR.toNat, calls + maxR.toNat, evs) := by
    simpa using hevs
  refine ⟨⟨evs, hevs2⟩, ?_, extract_category_needsReviewMissing m, ?_, ?_, ?_⟩
  · simp only [assignMatched, hf, isValidCat, hevs2, Option.map_some']
    simp
  · refine ⟨nrLine1 ++ "\n" ++
      "Teacher Report: Unable to obtain valid category after retrying. Please review student metrics: ",
      ?_⟩
    apply String.ext
    simp [needsReviewMissing, String.data_append, List.append_assoc]
  · exact fun maxR2 h2 fuel a c =>
      retryLoop_nonpos_none oracle cats maxR2 h2 hInv fuel a c
  · exact fun maxR2 oracle2 h2 fuel a c v a2 c2 evs2 hrt =>
      retryLoop_nonpos_valid oracle2 cats maxR2 h2 fuel a c v a2 c2 evs2 hrt

/-- C7 witness instance: retry bound 2 and a constant invalid answer lead to
the Needs-Review fallback after exactly 2 attempts. -/
theorem claim_C7_witness :
    assignMatched (fun _ => Except.ok "bad") ["Good"] 2 3 [("s", "mx")]
      ["frag"] 0 =
      some ([("s", remove_markdown_bold (needsReviewMissing "mx"))], 2) := by
  have hInv : ∀ (n : ℕ) (cnd : String), (splitResponses (recoverCall
      ((fun _ : ℕ => (Except.ok "bad" : Except Unit String)) n))).head? =
        some cnd →
      isValidCat ["Good"] (extract_category cnd) = false := by
    intro n cnd hc
    obtain rfl := Option.some.inj hc
    decide
  have hf : extract_category "frag" = none := rfl
  exact (claim_C7 (fun _ => Except.ok "bad") ["Good"] 2 "s" "mx" "frag" 0
    (by norm_num) hInv hf).2.1

/-- C8 as stated is false: the loop sleeps after every failed attempt, the
final one included — with retry bound 1 and an empty response, the single
failed attempt is followed by a 1-second delay, so the trace ends in a
delay event. -/
theorem claim_C8_counterexample :
    retryLoop (fun _ => Except.ok "") ["Good"] 1 2 0 0 =
      some (none, 1, 1, [RetryEvent.attempt 1, RetryEvent.delay 1]) ∧
    List.getLast? [RetryEvent.attempt 1, RetryEvent.delay 1] =
      some (RetryEvent.delay 1) :=
  ⟨rfl, rfl⟩

/-- C8 amended: in every terminating run of the retry loop, a delay of
`min(2^(k-1), 30)` seconds follows each failed attempt `k` — including the
final failed attempt of an exhausted run — while no delay precedes the
first attempt and none follows a successful attempt. -/
theorem claim_C8 (oracle : ℕ → Except Unit String) (cats : List String)
    (maxR : ℤ) (fuel a c : ℕ) (v : Option String) (a2 c2 : ℕ)
    (evs : List RetryEvent)
    (h : retryLoop oracle cats maxR fuel a c = some (v, a2, c2, evs)) :
    (∀ s, v = some s → isSuccTrace (a + 1) evs = true) ∧
    (v = none → isFailTrace (a + 1) evs = true) :=
  retryLoop_trace oracle cats maxR fuel a c v a2 c2 evs h

/-- C8 witness instance: a first-attempt success yields the bare
one-attempt trace with no delay. -/
theorem claim_C8_witness :
    isSuccTrace 1 [RetryEvent.attempt 1] = true := by
  exact (claim_C8 (fun _ => Except.ok "Category: Good\nx") ["Good"] 3 4 0 0
    (some "Category: Good\nx") 1 1 [RetryEvent.attempt 1] rfl).1
    "Category: Good\nx" rfl
